import Mathlib

/-!
Verification development for the lib7shifts sync engine
(`lib7shifts/cmd/sync.py` and `lib7shifts/dates.py`).

The embedding models:
* `db_upsert` — the homemade upsert protocol (temporary table, first-key
  delete, append), as a pure function from the destination table state and
  the keyed batch to the new table state and the returned row count;
* the chunked receipt writer loop of `sync_receipt_data`;
* `parse_dates` and the date helpers (`to_local_date`, `yesterday`,
  `to_y_m_d`), with datetimes as epoch seconds and the local timezone as a
  fixed UTC offset (matching `get_local_tz`, which returns a fixed-offset
  timezone);
* `get_role_data` — role/station normalization;
* the `daily_sales_and_labor` composite index construction of
  `sync_daily_sales_and_labor_data`.
-/

namespace Lib7shifts

section Upsert

variable {K V : Type} [DecidableEq K]

/-- A destination (or batch) row: the list of index (key-column) values in
index order, paired with the remaining payload columns.  A pandas frame with
a named single index contributes one key value per row; a `MultiIndex`
contributes several. -/
abbrev Row (K V : Type) := List K × V

/-- Embedding of `db_upsert` from `lib7shifts/cmd/sync.py`.

`db` is the current state of the destination table (`none` when
`sqlalchemy.inspect(...).has_table(table)` is false).  `keyNames` is the
list of declared index names of the data frame (`[]` when the frame's index
has no name, which is what the `assert keys` guards against).  `rows` is
the batch.

The source: if the table does not exist, `data_frame.to_sql(table, ...)`
writes the batch directly and returns its row count.  Otherwise, after the
(side-effect free) size warning, the key names are collected, the assertion
fires when none exist, and within one transaction the batch is staged to a
temporary table, `DELETE FROM table WHERE keys[0] IN (SELECT keys[0] FROM
tmp)` removes every destination row whose FIRST key value occurs among the
batch's first key values, the temporary table is dropped, and the batch is
appended.  The result is the new table state and the returned row count. -/
def db_upsert (db : Option (List (Row K V))) (table : String)
    (keyNames : List String) (rows : List (Row K V)) :
    Except String (List (Row K V) × Nat) :=
  match db with
  | none => .ok (rows, rows.length)
  | some dest =>
    if keyNames.isEmpty then
      .error ("no keys could be discerned for " ++ table ++
        " data frame (no index name)")
    else
      let firsts := rows.map fun r => r.1.head?
      let kept := dest.filter fun t => decide (t.1.head? ∉ firsts)
      .ok (kept ++ rows, rows.length)

/-- Characterization of `db_upsert` on an existing table with a keyed
batch: the delete step retains exactly the destination rows whose first key
value is absent from the batch's first key values, then the batch is
appended, and the batch's row count is returned. -/
theorem db_upsert_some_eq (table : String) (keyNames : List String)
    (rows : List (Row K V)) (T : List (Row K V)) (h : keyNames ≠ []) :
    db_upsert (some T) table keyNames rows =
      .ok ((T.filter fun t =>
        decide (t.1.head? ∉ rows.map fun r => r.1.head?)) ++ rows,
        rows.length) := by
  have hne : keyNames.isEmpty = false := by
    cases keyNames with
    | nil => exact absurd rfl h
    | cons a l => rfl
  simp [db_upsert, hne]

/-- Every batch row survives its own delete predicate negatively: a batch
row's first key value is in the batch's first key values. -/
theorem batch_filter_self (rows : List (Row K V)) :
    (rows.filter fun t =>
      decide (t.1.head? ∉ rows.map fun r => r.1.head?)) = [] := by
  rw [List.filter_eq_nil_iff]
  intro a ha
  simp only [decide_eq_true_eq, not_not]
  exact List.mem_map_of_mem (fun r => r.1.head?) ha

/-- Claim C1: for every destination table that already exists and every
batch of keyed rows, performing `db_upsert` with the same batch twice in
succession leaves the destination table with the same row count and the
same content as performing it once (and returns the same count). -/
theorem db_upsert_idempotent (table : String) (keyNames : List String)
    (rows T T₁ : List (Row K V)) (n : Nat) (hkn : keyNames ≠ [])
    (h1 : db_upsert (some T) table keyNames rows = .ok (T₁, n)) :
    db_upsert (some T₁) table keyNames rows = .ok (T₁, n) := by
  rw [db_upsert_some_eq table keyNames rows T hkn] at h1
  have hT₁ : T₁ = (T.filter fun t =>
      decide (t.1.head? ∉ rows.map fun r => r.1.head?)) ++ rows := by
    cases h1; rfl
  have hn : n = rows.length := by cases h1; rfl
  rw [db_upsert_some_eq table keyNames rows T₁ hkn, hT₁, hn]
  rw [List.filter_append, batch_filter_self, List.append_nil,
    List.filter_filter]
  simp only [Bool.and_self]

/-- Witness for C1 at a concrete input: a one-row table and a one-row
batch sharing the key value 1. -/
theorem db_upsert_idempotent_witness :
    (["id"] : List String) ≠ [] ∧
    db_upsert (some [([1], 10)]) "users" ["id"]
      ([([1], 20)] : List (Row Nat Nat)) = .ok ([([1], 20)], 1) ∧
    db_upsert (some [([1], 20)]) "users" ["id"]
      ([([1], 20)] : List (Row Nat Nat)) = .ok ([([1], 20)], 1) := by
  refine ⟨by decide, by rfl, ?_⟩
  exact db_upsert_idempotent "users" ["id"] [([1], 20)] [([1], 10)]
    [([1], 20)] 1 (by decide) (by rfl)

/-- Claim C2: if the batch contains exactly one row carrying first key
value `k` (the row `rK`, e.g. the updated row with `v = 2`), and the
existing destination table contains some row `t₀` with first key value `k`
(e.g. the stale row with `v = 1`), then after the upsert the destination
table contains exactly one row with first key value `k`, namely `rK`. -/
theorem db_upsert_replaces (table : String) (keyNames : List String)
    (rows T res : List (Row K V)) (n : Nat) (k : K) (rK t₀ : Row K V)
    (hkn : keyNames ≠ [])
    (hbatch : (rows.filter fun r => decide (r.1.head? = some k)) = [rK])
    (ht₀ : t₀ ∈ T) (ht₀k : t₀.1.head? = some k)
    (h : db_upsert (some T) table keyNames rows = .ok (res, n)) :
    (res.filter fun r => decide (r.1.head? = some k)) = [rK] := by
  rw [db_upsert_some_eq table keyNames rows T hkn] at h
  have hres : res = (T.filter fun t =>
      decide (t.1.head? ∉ rows.map fun r => r.1.head?)) ++ rows := by
    cases h; rfl
  have hrK : rK ∈ rows := by
    have : rK ∈ rows.filter fun r => decide (r.1.head? = some k) := by
      rw [hbatch]; exact List.mem_singleton.mpr rfl
    exact List.mem_of_mem_filter this
  have hrKk : rK.1.head? = some k := by
    have : rK ∈ rows.filter fun r => decide (r.1.head? = some k) := by
      rw [hbatch]; exact List.mem_singleton.mpr rfl
    simpa using (List.mem_filter.mp this).2
  rw [hres, List.filter_append, List.filter_filter]
  have hleft : (T.filter fun a =>
      decide (a.1.head? = some k) &&
        decide (a.1.head? ∉ rows.map fun r => r.1.head?)) = [] := by
    rw [List.filter_eq_nil_iff]
    intro a _
    simp only [Bool.and_eq_true, decide_eq_true_eq, not_and, not_not]
    intro hak
    rw [hak, ← hrKk]
    exact List.mem_map_of_mem (fun r => r.1.head?) hrK
  rw [hleft, List.nil_append, hbatch]

/-- Witness for C2 at a concrete input: the destination holds key 1 with
payload 1; the batch carries key 1 with payload 2; the result holds exactly
one row with key 1, carrying payload 2. -/
theorem db_upsert_replaces_witness :
    (["id"] : List String) ≠ [] ∧
    db_upsert (some [([1], 1)]) "users" ["id"]
      ([([1], 2)] : List (Row Nat Nat)) = .ok ([([1], 2)], 1) ∧
    (([([1], 2)] : List (Row Nat Nat)).filter fun r =>
      decide (r.1.head? = some 1)) = [([1], 2)] := by
  refine ⟨by decide, by rfl, ?_⟩
  exact db_upsert_replaces "users" ["id"] [([1], 2)] [([1], 1)]
    [([1], 2)] 1 1 ([1], 2) ([1], 1) (by decide) (by rfl)
    (List.mem_singleton.mpr rfl) (by rfl) (by rfl)

/-- Claim C3: for a batch with a composite (multi-column) key upserted into
an existing destination table, the surviving old rows are exactly those
whose FIRST key value is absent from the batch's first key values — the
remaining key columns are never consulted by the delete — and every old row
whose first key value occurs among the batch's first key values is removed
from the retained portion even when its remaining key columns differ from
every batch row's. -/
theorem db_upsert_first_key_only_delete (table : String)
    (keyNames : List String) (rows T res : List (Row K V)) (n : Nat)
    (hkn : 2 ≤ keyNames.length)
    (h : db_upsert (some T) table keyNames rows = .ok (res, n)) :
    res = (T.filter fun t =>
        decide (t.1.head? ∉ rows.map fun r => r.1.head?)) ++ rows ∧
    ∀ t ∈ T, t.1.head? ∈ (rows.map fun r => r.1.head?) →
      t ∉ (T.filter fun t =>
        decide (t.1.head? ∉ rows.map fun r => r.1.head?)) := by
  have hkn' : keyNames ≠ [] := by
    intro hnil
    rw [hnil] at hkn
    exact absurd hkn (by decide)
  rw [db_upsert_some_eq table keyNames rows T hkn'] at h
  refine ⟨by cases h; rfl, ?_⟩
  intro t _ htk hmem
  have := (List.mem_filter.mp hmem).2
  simp only [decide_eq_true_eq] at this
  exact this htk

/-- Witness for C3 at a concrete input: a two-column key; the destination
row `([1, 5], 10)` shares only its first key value with the batch row
`([1, 7], 20)` and is nevertheless deleted, while `([2, 5], 11)` is kept. -/
theorem db_upsert_first_key_only_delete_witness :
    2 ≤ (["index_col", "location_id"] : List String).length ∧
    db_upsert (some [([1, 5], 10), ([2, 5], 11)]) "daily" ["index_col", "location_id"]
      ([([1, 7], 20)] : List (Row Nat Nat)) =
      .ok ([([2, 5], 11), ([1, 7], 20)], 1) ∧
    ([([2, 5], 11), ([1, 7], 20)] : List (Row Nat Nat)) =
      (([([1, 5], 10), ([2, 5], 11)] : List (Row Nat Nat)).filter fun t =>
        decide (t.1.head? ∉ [([1, 7], (20 : Nat))].map fun r => r.1.head?)) ++
        [([1, 7], 20)] := by
  refine ⟨by decide, by rfl, ?_⟩
  exact ((db_upsert_first_key_only_delete "daily" ["index_col", "location_id"]
    [([1, 7], 20)] [([1, 5], 10), ([2, 5], 11)] [([2, 5], 11), ([1, 7], 20)] 1
    (by decide) (by rfl)).1).symm ▸ rfl

/-- Claim C8 counterexample: a non-empty batch with no declared key column,
upserted when the destination table does not yet exist, does NOT raise the
key-determination failure — `db_upsert` writes the batch as a fresh table
and returns its row count. -/
theorem db_upsert_keyless_no_table_succeeds :
    db_upsert (K := Nat) (V := Nat) none "users" [] [([], 3)] =
      .ok ([([], 3)], 1) ∧
    ∀ msg, db_upsert (K := Nat) (V := Nat) none "users" [] [([], 3)] ≠
      .error msg := by
  exact ⟨rfl, fun msg h => Except.noConfusion h⟩

/-- Claim C8 (amended): for every non-empty batch whose rows declare no key
column (no index name), upserting it into a destination table that already
exists fails with the key-determination assertion, returning no new table
state — the error is raised before anything is written. -/
theorem db_upsert_keyless_existing_fatal (table : String)
    (rows T : List (Row K V)) (hrows : rows ≠ []) :
    db_upsert (some T) table [] rows =
      .error ("no keys could be discerned for " ++ table ++
        " data frame (no index name)") := by
  rfl

/-- Witness for the amended C8 at a concrete input. -/
theorem db_upsert_keyless_existing_fatal_witness :
    ([([], 3)] : List (Row Nat Nat)) ≠ [] ∧
    db_upsert (some [([], 7)]) "users" [] ([([], 3)] : List (Row Nat Nat)) =
      .error ("no keys could be discerned for users data frame (no index name)") := by
  refine ⟨by simp, ?_⟩
  have := db_upsert_keyless_existing_fatal "users"
    ([([], 3)] : List (Row Nat Nat)) [([], 7)] (by simp)
  simpa using this

/-- Claim C9: the key-determination check runs only after the
table-existence test.  When the destination table does not exist,
`db_upsert` writes the batch directly as a fresh table and returns its row
count even for a batch with no declared key column; once the table exists,
the same keyless batch fails with the key-determination assertion. -/
theorem db_upsert_keyless_first_upsert (table : String)
    (rows : List (Row K V)) :
    db_upsert none table [] rows = .ok (rows, rows.length) ∧
    ∀ T : List (Row K V), ∃ msg,
      db_upsert (some T) table [] rows = .error msg := by
  exact ⟨rfl, fun T => ⟨_, rfl⟩⟩

end Upsert

section Receipts

variable {R : Type}

/-- The `while True` loop body of `sync_receipt_data`: the buffer `chunk`
accumulates records drawn from the stream; when `len(chunk) >= chunk_size`
the chunk is handed to `_sync_receipt_chunk` and the buffer is cleared
(`del chunk[:]`); on `StopIteration` the current buffer is handed to
`_sync_receipt_chunk` one last time (even when empty) and the loop breaks.
The result is the sequence of chunks passed to `_sync_receipt_chunk`, in
order. -/
def sync_receipt_loop (chunkSize : Nat) (chunk : List R) :
    List R → List (List R)
  | [] => [chunk]
  | x :: rest =>
    if chunkSize ≤ (chunk ++ [x]).length then
      (chunk ++ [x]) :: sync_receipt_loop chunkSize [] rest
    else
      sync_receipt_loop chunkSize (chunk ++ [x]) rest

/-- The chunk sequence produced by `sync_receipt_data` for one location's
receipt stream `data` with the given `chunk_size`: the loop starts with an
empty buffer. -/
def sync_receipt_chunks (chunkSize : Nat) (data : List R) : List (List R) :=
  sync_receipt_loop chunkSize [] data

/-- Embedding of `_sync_receipt_chunk`: rows written for one chunk.  A
non-empty chunk is indexed on `id` and upserted into `receipts`, and the
upsert returns the chunk's row count; an empty chunk performs no sink
operation and returns 0. -/
def sync_receipt_chunk (chunk : List R) : Nat :=
  if 0 < chunk.length then chunk.length else 0

/-- Embedding of `sync_receipt_data` for one location's stream: the total
row count accumulated into `written` across all `_sync_receipt_chunk`
calls. -/
def sync_receipt_data (chunkSize : Nat) (data : List R) : Nat :=
  ((sync_receipt_chunks chunkSize data).map sync_receipt_chunk).sum

/-- The loop emits every buffered and remaining record exactly once, in
order: flattening the chunk sequence recovers `chunk ++ rest`. -/
theorem sync_receipt_loop_flatten (chunkSize : Nat) :
    ∀ (rest chunk : List R),
      (sync_receipt_loop chunkSize chunk rest).flatten = chunk ++ rest := by
  intro rest
  induction rest with
  | nil => intro chunk; simp [sync_receipt_loop]
  | cons x rest ih =>
    intro chunk
    simp only [sync_receipt_loop]
    by_cases hc : chunkSize ≤ (chunk ++ [x]).length
    · rw [if_pos hc]
      simp [ih]
    · rw [if_neg hc]
      simp [ih]

/-- Counting flushes: provided the running buffer is strictly below the
chunk size, the number of non-empty chunks the loop emits is the ceiling
of (buffered + remaining) divided by the chunk size. -/
theorem sync_receipt_loop_count (chunkSize : Nat) :
    ∀ (rest chunk : List R), chunk.length < chunkSize →
      ((sync_receipt_loop chunkSize chunk rest).filter fun c =>
        !c.isEmpty).length =
        (chunk.length + rest.length + chunkSize - 1) / chunkSize := by
  intro rest
  induction rest with
  | nil =>
    intro chunk hlt
    have hpos : 0 < chunkSize := by omega
    simp only [sync_receipt_loop, List.length_nil, Nat.add_zero]
    cases chunk with
    | nil =>
      simp only [List.filter, List.isEmpty_nil, Bool.not_true,
        List.length_nil, Nat.zero_add]
      exact (Nat.div_eq_of_lt (by omega)).symm
    | cons a l =>
      have hsmall : (a :: l).length - 1 < chunkSize := by
        simp only [List.length_cons] at hlt ⊢; omega
      have hdiv : ((a :: l).length + chunkSize - 1) / chunkSize = 1 := by
        have h2 : (a :: l).length + chunkSize - 1 =
            ((a :: l).length - 1) + chunkSize := by
          simp only [List.length_cons]; omega
        rw [h2, Nat.add_div_right _ hpos, Nat.div_eq_of_lt hsmall]
      rw [hdiv]
      simp [List.filter]
  | cons x rest ih =>
    intro chunk hlt
    have hpos : 0 < chunkSize := by omega
    simp only [sync_receipt_loop]
    by_cases hc : chunkSize ≤ (chunk ++ [x]).length
    · rw [if_pos hc]
      have hfull : chunk.length + 1 = chunkSize := by
        simp only [List.length_append, List.length_singleton] at hc
        omega
      have hne : (chunk ++ [x]).isEmpty = false := by
        cases chunk <;> rfl
      have hstep : (List.filter (fun c => !c.isEmpty)
          ((chunk ++ [x]) :: sync_receipt_loop chunkSize [] rest)) =
          (chunk ++ [x]) :: List.filter (fun c => !c.isEmpty)
            (sync_receipt_loop chunkSize [] rest) := by
        simp [List.filter_cons, hne]
      rw [hstep, List.length_cons, ih [] hpos]
      simp only [List.length_nil, Nat.zero_add, List.length_cons]
      have hnum : chunk.length + (rest.length + 1) + chunkSize - 1 =
          (rest.length + chunkSize - 1) + chunkSize := by omega
      rw [hnum, Nat.add_div_right _ hpos]
    · rw [if_neg hc]
      have hlt' : (chunk ++ [x]).length < chunkSize := Nat.lt_of_not_le hc
      rw [ih (chunk ++ [x]) hlt']
      have hnum : (chunk ++ [x]).length + rest.length + chunkSize - 1 =
          chunk.length + (x :: rest).length + chunkSize - 1 := by
        simp only [List.length_append, List.length_cons, List.length_nil]
        omega
      rw [hnum]

/-- Claim C4: for a receipt stream of length `N` for one location and a
positive chunk size `C`, the writer performs `⌈N/C⌉` non-empty flushes
(each non-empty chunk is upserted; the loop's final call on an empty buffer
writes nothing), the flushed chunks concatenate back to the stream — every
row is flushed exactly once, including a final partial chunk — and the
total row count written equals `N`; in particular `N = 0` yields zero
non-empty flushes and zero rows written. -/
theorem sync_receipt_data_complete (chunkSize : Nat) (data : List R)
    (hC : 0 < chunkSize) :
    ((sync_receipt_chunks chunkSize data).filter fun c =>
      !c.isEmpty).length = (data.length + chunkSize - 1) / chunkSize ∧
    (sync_receipt_chunks chunkSize data).flatten = data ∧
    sync_receipt_data chunkSize data = data.length := by
  refine ⟨?_, ?_, ?_⟩
  · have := sync_receipt_loop_count (R := R) chunkSize data [] hC
    simpa [sync_receipt_chunks] using this
  · have := sync_receipt_loop_flatten (R := R) chunkSize data []
    simpa [sync_receipt_chunks] using this
  · have hmap : (sync_receipt_chunks chunkSize data).map sync_receipt_chunk =
        (sync_receipt_chunks chunkSize data).map List.length := by
      apply List.map_congr_left
      intro c _
      cases c with
      | nil => rfl
      | cons a l => simp [sync_receipt_chunk]
    rw [sync_receipt_data, hmap, ← List.length_flatten,
      sync_receipt_chunks, sync_receipt_loop_flatten]
    simp

/-- Witness for C4 at concrete inputs: a stream of 5 records with chunk
size 2 flushes 3 times (2 + 2 + 1 rows) and writes 5 rows; the empty
stream flushes zero times and writes zero rows. -/
theorem sync_receipt_data_complete_witness :
    (0 < 2 ∧
      ((sync_receipt_chunks 2 [10, 20, 30, 40, 50]).filter fun c =>
        !c.isEmpty).length = (5 + 2 - 1) / 2 ∧
      (sync_receipt_chunks 2 [10, 20, 30, 40, 50]).flatten =
        [10, 20, 30, 40, 50] ∧
      sync_receipt_data 2 [10, 20, 30, 40, 50] = 5) ∧
    (((sync_receipt_chunks 2 ([] : List Nat)).filter fun c =>
        !c.isEmpty).length = 0 ∧
      sync_receipt_data 2 ([] : List Nat) = 0) := by
  constructor
  · have := sync_receipt_data_complete 2 [10, 20, 30, 40, 50] (by decide)
    exact ⟨by decide, by simpa using this.1, this.2.1, this.2.2⟩
  · have := sync_receipt_data_complete 2 ([] : List Nat) (by decide)
    exact ⟨by simpa using this.1, this.2.2⟩

end Receipts

section Dates

/-- A calendar date as parsed by `strptime(date_string, "%Y-%m-%d")` in
`lib7shifts/dates.py`.  The string-level parsing is performed by the Python
standard library; the embedding works with the parsed fields. -/
structure Date where
  year : Nat
  month : Nat
  day : Nat
deriving DecidableEq, Repr

/-- Gregorian leap-year rule, as used by `datetime.date`. -/
def isLeapYear (y : Nat) : Bool :=
  y % 4 == 0 && (y % 100 != 0 || y % 400 == 0)

/-- Number of days in a month of a given year. -/
def daysInMonth (y m : Nat) : Nat :=
  match m with
  | 1 => 31
  | 2 => if isLeapYear y then 29 else 28
  | 3 => 31
  | 4 => 30
  | 5 => 31
  | 6 => 30
  | 7 => 31
  | 8 => 31
  | 9 => 30
  | 10 => 31
  | 11 => 30
  | 12 => 31
  | _ => 0

/-- A date string accepted by `strptime` with format `%Y-%m-%d` denotes a
valid proleptic-Gregorian calendar date. -/
def Date.valid (d : Date) : Prop :=
  1 ≤ d.year ∧ 1 ≤ d.month ∧ d.month ≤ 12 ∧
    1 ≤ d.day ∧ d.day ≤ daysInMonth d.year d.month

instance (d : Date) : Decidable d.valid := by
  unfold Date.valid; infer_instance

/-- Days since the Unix epoch (1970-01-01) of a calendar date, the civil
calendar arithmetic underlying `datetime.timestamp()` for a midnight
datetime.  All intermediate divisions are on non-negative values for the
years reachable from `%Y` parsing. -/
def epochDays (d : Date) : Int :=
  let y : Int := if d.month ≤ 2 then (d.year : Int) - 1 else (d.year : Int)
  let m : Int := d.month
  let era : Int := (if 0 ≤ y then y else y - 399) / 400
  let yoe : Int := y - era * 400
  let doy : Int :=
    (153 * (if 2 < m then m - 3 else m + 9) + 2) / 5 + (d.day : Int) - 1
  let doe : Int := yoe * 365 + yoe / 4 - yoe / 100 + doy
  era * 146097 + doe - 719468

/-- Embedding of `dates.to_local_date` composed with `.timestamp()`: the
instant (epoch seconds) of the date's local midnight.  `get_local_tz`
returns a fixed-offset timezone, modeled by `tzOff`, the offset east of
UTC in seconds; a tz-aware midnight's timestamp is the naive-UTC epoch
minus that offset. -/
def to_local_date (tzOff : Int) (d : Date) : Int :=
  86400 * epochDays d - tzOff

/-- The calendar date one day before `d` (`timedelta(days=1)` subtraction
on the wall-clock fields of a fixed-offset aware datetime). -/
def prevDay (d : Date) : Date :=
  if 1 < d.day then ⟨d.year, d.month, d.day - 1⟩
  else if 1 < d.month then
    ⟨d.year, d.month - 1, daysInMonth d.year (d.month - 1)⟩
  else ⟨d.year - 1, 12, 31⟩

/-- Embedding of `dates.yesterday` composed with `.timestamp()`: local
midnight of the host's current date (`today`, taken from the host clock
collaborator), minus one day. -/
def yesterday (today : Date) (tzOff : Int) : Int :=
  to_local_date tzOff today - 86400

/-- Decimal digit characters of a natural number, most significant first —
the text `str` / `%d` rendering used by Python string formatting. -/
def natDigits (n : Nat) : List Char :=
  if n = 0 then ['0']
  else (((Nat.digits 10 n).map decChar).reverse)
where
  /-- The character of one decimal digit. -/
  decChar (d : Nat) : Char :=
    match d with
    | 0 => '0' | 1 => '1' | 2 => '2' | 3 => '3' | 4 => '4'
    | 5 => '5' | 6 => '6' | 7 => '7' | 8 => '8' | _ => '9'

/-- Left-pad a character list with `'0'` to the given width, as `%04d` and
`%02d` do in `strftime`. -/
def padZeros (width : Nat) (s : List Char) : List Char :=
  List.replicate (width - s.length) '0' ++ s

/-- Embedding of `dates.to_y_m_d`: `strftime("%Y-%m-%d")` of a date. -/
def to_y_m_d (d : Date) : List Char :=
  padZeros 4 (natDigits d.year) ++ '-' ::
    (padZeros 2 (natDigits d.month) ++ '-' :: padZeros 2 (natDigits d.day))

/-- The date options handed to `parse_dates`: `--modified-since` is kept
as the raw string it was supplied as (the code stores it unparsed), while
`--start-date` / `--end-date` are represented by their parsed dates. -/
structure DateArgs where
  modifiedSince : Option (List Char)
  startDate : Option Date
  endDate : Option Date

/-- The resolved window returned by `parse_dates` (spec: `SyncWindow`):
either a date range of two UTC instants (epoch seconds) or a
modified-since cursor with the `modified_end_ymd` bookkeeping date. -/
inductive SyncWindow where
  | range (start stop : Int)
  | cursor (modifiedSince : List Char) (modifiedEndYmd : List Char)
deriving DecidableEq

/-- Embedding of `parse_dates` from `lib7shifts/cmd/sync.py`.  If
`--modified-since` is supplied, the result carries the raw value and
`to_y_m_d(yesterday())`; otherwise the start defaults to `yesterday()` and
is overridden by `--start-date`'s local midnight, the end defaults to
start + 23:59:59 and is overridden by `--end-date`'s local midnight +
23:59:59, and both instants are converted to UTC
(`datetime.fromtimestamp(ts, timezone.utc)` preserves the instant). -/
def parse_dates (today : Date) (tzOff : Int) (args : DateArgs) :
    SyncWindow :=
  match args.modifiedSince with
  | some ms => .cursor ms (to_y_m_d (prevDay today))
  | none =>
    let eod : Int := 23 * 3600 + 59 * 60 + 59
    let startTs : Int :=
      match args.startDate with
      | some d => to_local_date tzOff d
      | none => yesterday today tzOff
    let endTs : Int :=
      match args.endDate with
      | some d => to_local_date tzOff d + eod
      | none => startTs + eod
    .range startTs endTs

/-- The spec's description of a window bound, written from the spec text:
the date's local midnight, converted to UTC (same instant, expressed as
epoch seconds). -/
def specLocalMidnightUTC (tzOff : Int) (d : Date) : Int :=
  86400 * epochDays d - tzOff

/-- Claim C5: for valid dates `d1 ≤ d2`, resolving
`{start_date: d1, end_date: d2}` (no modified-since) yields a range window
whose start instant is `d1`'s local midnight converted to UTC and whose
end instant is `d2`'s local midnight plus 23:59:59 converted to UTC — the
end-of-day offset is added even though `end_date` is explicitly
supplied. -/
theorem parse_dates_range (today : Date) (tzOff : Int) (d1 d2 : Date)
    (h1 : d1.valid) (h2 : d2.valid) (hle : epochDays d1 ≤ epochDays d2) :
    parse_dates today tzOff ⟨none, some d1, some d2⟩ =
      .range (specLocalMidnightUTC tzOff d1)
        (specLocalMidnightUTC tzOff d2 + 86399) := by
  show SyncWindow.range (to_local_date tzOff d1)
      (to_local_date tzOff d2 + (23 * 3600 + 59 * 60 + 59)) = _
  rw [to_local_date, to_local_date, specLocalMidnightUTC,
    specLocalMidnightUTC]
  norm_num

/-- Witness for C5 at concrete dates (UTC-6 offset, i.e.
`tzOff = -21600`): 2023-01-01 through 2023-01-02. -/
theorem parse_dates_range_witness :
    (Date.mk 2023 1 1).valid ∧ (Date.mk 2023 1 2).valid ∧
    epochDays ⟨2023, 1, 1⟩ ≤ epochDays ⟨2023, 1, 2⟩ ∧
    parse_dates ⟨2023, 5, 10⟩ (-21600) ⟨none, some ⟨2023, 1, 1⟩,
        some ⟨2023, 1, 2⟩⟩ =
      .range (specLocalMidnightUTC (-21600) ⟨2023, 1, 1⟩)
        (specLocalMidnightUTC (-21600) ⟨2023, 1, 2⟩ + 86399) := by
  refine ⟨by decide, by decide, by decide, ?_⟩
  exact parse_dates_range ⟨2023, 5, 10⟩ (-21600) ⟨2023, 1, 1⟩
    ⟨2023, 1, 2⟩ (by decide) (by decide) (by decide)

/-- Claim C6: whenever `--modified-since` is supplied, `parse_dates`
yields the cursor variant — never a range window — regardless of whether
`--start-date` / `--end-date` are also supplied; its modified-since field
is the supplied value and its bookkeeping date is yesterday's date
(`to_y_m_d(yesterday())`). -/
theorem parse_dates_cursor_precedence (today : Date) (tzOff : Int)
    (ms : List Char) (sd ed : Option Date) :
    parse_dates today tzOff ⟨some ms, sd, ed⟩ =
      .cursor ms (to_y_m_d (prevDay today)) ∧
    ∀ s e : Int, parse_dates today tzOff ⟨some ms, sd, ed⟩ ≠
      .range s e := by
  refine ⟨rfl, ?_⟩
  intro s e h
  have hc : SyncWindow.cursor ms (to_y_m_d (prevDay today)) =
      SyncWindow.range s e := by
    rw [← h]; rfl
  exact SyncWindow.noConfusion hc

end Dates

section Roles

variable {α σ : Type}

/-- A raw role record from `list_roles`: its reported station count
(`num_stations`), its nested `stations` list, and its remaining fields. -/
structure RoleRecord (α σ : Type) where
  num_stations : Int
  stations : List σ
  rest : α
deriving DecidableEq

/-- A normalized role row as built by `get_role_data`: when the record's
stations were popped the row carries no `stations` field (`none`);
otherwise the nested list is still present. -/
structure RoleRow (α σ : Type) where
  num_stations : Int
  stations : Option (List σ)
  rest : α
deriving DecidableEq

/-- Embedding of the loop of `get_role_data`: for each role from the API,
when the record reports a nonzero station count its `stations` list is
popped from the record and extended onto the stations stream; the (possibly
stripped) role is appended to the roles stream. -/
def get_role_data : List (RoleRecord α σ) →
    List (RoleRow α σ) × List σ
  | [] => ([], [])
  | r :: rs =>
    let tail := get_role_data rs
    if 0 < r.num_stations then
      (⟨r.num_stations, none, r.rest⟩ :: tail.1, r.stations ++ tail.2)
    else
      (⟨r.num_stations, some r.stations, r.rest⟩ :: tail.1, tail.2)

/-- Claim C7: a role record whose nested stations list has length `k > 0`
and whose reported station count is nonzero normalizes to exactly one
primary role row that carries no stations field, and exactly `k` derived
station rows (the record's stations, in order) in the stations stream;
and stations are extracted only when the record reports a nonzero station
count — any record whose reported count is not positive contributes no
station rows at all (its role row keeps the nested stations field). -/
theorem get_role_data_normalizes (r : RoleRecord α σ) (k : Nat)
    (hk : r.stations.length = k) (hkpos : 0 < k)
    (hns : 0 < r.num_stations) :
    ((get_role_data [r]).1 = [⟨r.num_stations, none, r.rest⟩] ∧
      (get_role_data [r]).2 = r.stations ∧
      (get_role_data [r]).2.length = k) ∧
    ∀ r₀ : RoleRecord α σ, ¬ 0 < r₀.num_stations →
      get_role_data [r₀] =
        ([⟨r₀.num_stations, some r₀.stations, r₀.rest⟩], []) := by
  refine ⟨⟨?_, ?_, ?_⟩, ?_⟩
  · simp [get_role_data, hns]
  · simp [get_role_data, hns]
  · simp [get_role_data, hns, hk]
  · intro r₀ h₀
    simp [get_role_data, h₀]

/-- Witness for C7 at concrete records: one with a reported count of 2 and
three stations, and one with a reported count of 0 whose two stations are
not extracted. -/
theorem get_role_data_normalizes_witness :
    (RoleRecord.mk 2 [7, 8, 9] (0 : Nat) : RoleRecord Nat Nat).stations.length
        = 3 ∧ 0 < 3 ∧
    (0 : Int) < (RoleRecord.mk 2 [7, 8, 9] (0 : Nat) :
      RoleRecord Nat Nat).num_stations ∧
    (get_role_data [(⟨2, [7, 8, 9], 0⟩ : RoleRecord Nat Nat)]).1 =
      [⟨2, none, 0⟩] ∧
    (get_role_data [(⟨2, [7, 8, 9], 0⟩ : RoleRecord Nat Nat)]).2 =
      [7, 8, 9] ∧
    (get_role_data [(⟨2, [7, 8, 9], 0⟩ : RoleRecord Nat Nat)]).2.length
      = 3 ∧
    get_role_data [(⟨0, [4, 5], 1⟩ : RoleRecord Nat Nat)] =
      ([⟨0, some [4, 5], 1⟩], []) := by
  have h := get_role_data_normalizes
    (⟨2, [7, 8, 9], 0⟩ : RoleRecord Nat Nat) 3 (by decide) (by decide)
    (by decide)
  exact ⟨by decide, by decide, by decide, h.1.1, h.1.2.1, h.1.2.2,
    h.2 (⟨0, [4, 5], 1⟩ : RoleRecord Nat Nat) (by decide)⟩

end Roles

section DailySales

/-- The numeric value of a decimal digit character. -/
def charToDigit (c : Char) : Nat := c.toNat - 48

/-- Embedding of the synthesized key of
`sync_daily_sales_and_labor_data`, the f-string of the form
location-id, dash, date: `natDigits locId ++ '-' :: date`. -/
def mkIndexCol (locId : Nat) (date : List Char) : List Char :=
  natDigits locId ++ '-' :: date

/-- The composite index assigned by
`set_index(['index_col', 'location_id', 'date'])`: the synthesized string
key first, then the location id (rendered to its column value) and the
date. -/
def dailyKeys (locId : Nat) (date : List Char) : List (List Char) :=
  [mkIndexCol locId date, natDigits locId, date]

/-- The `daily_sales_and_labor` frame built from per-location records
`(location_id, date, payload)`: each row is keyed by `dailyKeys`. -/
def dailyFrame {V : Type} (recs : List (Nat × List Char × V)) :
    List (Row (List Char) V) :=
  recs.map fun r => (dailyKeys r.1 r.2.1, r.2.2)

/-- Split a character list at its first dash. -/
def splitAtDash : List Char → Option (List Char × List Char)
  | [] => none
  | c :: cs =>
    if c = '-' then some ([], cs)
    else (splitAtDash cs).map fun p => (c :: p.1, p.2)

/-- Read a decimal digit string back to its number. -/
def parseDigits (s : List Char) : Nat :=
  s.foldl (fun a c => a * 10 + charToDigit c) 0

/-- Reading back the character of a decimal digit yields the digit. -/
theorem charToDigit_decChar (d : Nat) (hd : d < 10) :
    charToDigit (natDigits.decChar d) = d := by
  interval_cases d <;> rfl

/-- No decimal digit character is a dash. -/
theorem decChar_ne_dash (d : Nat) : natDigits.decChar d ≠ '-' := by
  rcases d with _ | _ | _ | _ | _ | _ | _ | _ | _ | d
  · decide
  · decide
  · decide
  · decide
  · decide
  · decide
  · decide
  · decide
  · decide
  · intro h
    have h9 : ('9' : Char) = '-' := h
    exact absurd h9 (by decide)

/-- The decimal rendering of a natural number contains no dash. -/
theorem dash_not_mem_natDigits (n : Nat) : '-' ∉ natDigits n := by
  rw [natDigits]
  split
  · decide
  · intro hmem
    rw [List.mem_reverse] at hmem
    obtain ⟨d, _, hd⟩ := List.mem_map.mp hmem
    exact decChar_ne_dash d hd

/-- Splitting at the dash that follows a dash-free block recovers the two
sides. -/
theorem splitAtDash_append (a b : List Char) (ha : '-' ∉ a) :
    splitAtDash (a ++ '-' :: b) = some (a, b) := by
  induction a with
  | nil => simp [splitAtDash]
  | cons c cs ih =>
    have hc : c ≠ '-' := fun h => ha (h ▸ List.mem_cons_self c cs)
    have hcs : '-' ∉ cs := fun h => ha (List.mem_cons_of_mem c h)
    simp [splitAtDash, hc, ih hcs]

/-- Horner evaluation of a reversed digit-character rendering. -/
theorem foldl_digits (L : List Nat) (hL : ∀ d ∈ L, d < 10) :
    ∀ a : Nat,
      ((L.map natDigits.decChar).reverse).foldl
        (fun acc c => acc * 10 + charToDigit c) a =
      a * 10 ^ L.length + Nat.ofDigits 10 L := by
  induction L with
  | nil => intro a; simp
  | cons d L ih =>
    intro a
    have hd : d < 10 := hL d (List.mem_cons_self d L)
    have hL' : ∀ e ∈ L, e < 10 := fun e he => hL e (List.mem_cons_of_mem d he)
    rw [List.map_cons, List.reverse_cons, List.foldl_append, ih hL' a]
    simp only [List.foldl_cons, List.foldl_nil, charToDigit_decChar d hd,
      Nat.ofDigits_cons, List.length_cons]
    ring

/-- Reading the decimal rendering of a natural number back yields the
number. -/
theorem parseDigits_natDigits (n : Nat) :
    parseDigits (natDigits n) = n := by
  rw [natDigits]
  split
  · subst n; rfl
  · rw [parseDigits, foldl_digits (Nat.digits 10 n)
      (fun d hd => Nat.digits_lt_base (by norm_num) hd) 0]
    simp [Nat.ofDigits_digits]

/-- The synthesized key parses back to its two components. -/
theorem splitAtDash_mkIndexCol (l : Nat) (d : List Char) :
    splitAtDash (mkIndexCol l d) = some (natDigits l, d) :=
  splitAtDash_append (natDigits l) d (dash_not_mem_natDigits l)

/-- The synthesized string key of `sync_daily_sales_and_labor_data` is
injective in the pair: two `location_id`-dash-`date` strings coincide
exactly when both the location ids and the dates coincide. -/
theorem mkIndexCol_inj (l₁ l₂ : Nat) (d₁ d₂ : List Char) :
    mkIndexCol l₁ d₁ = mkIndexCol l₂ d₂ ↔ l₁ = l₂ ∧ d₁ = d₂ := by
  constructor
  · intro h
    have hs : some (natDigits l₁, d₁) = some (natDigits l₂, d₂) := by
      rw [← splitAtDash_mkIndexCol, ← splitAtDash_mkIndexCol, h]
    have hp := Option.some.inj hs
    have h1 : natDigits l₁ = natDigits l₂ := congrArg Prod.fst hp
    refine ⟨?_, congrArg Prod.snd hp⟩
    have := congrArg parseDigits h1
    rwa [parseDigits_natDigits, parseDigits_natDigits] at this
  · rintro ⟨rfl, rfl⟩; rfl

/-- Claim C10: for every `daily_sales_and_labor` destination table and
batch built from `(location_id, date, payload)` records, the composite
index puts the synthesized string key first (ahead of `location_id` and
`date`), and the upsert engine's first-key-only delete is exact for this
entity: the retained destination rows are exactly those whose
`(location_id, date)` pair matches no batch record, and the batch is then
appended. -/
theorem daily_sales_first_key_exact {V : Type}
    (T B : List (Nat × List Char × V)) :
    (∀ (l : Nat) (d : List Char),
      (dailyKeys l d).head? = some (mkIndexCol l d)) ∧
    db_upsert (some (dailyFrame T)) "daily_sales_and_labor"
        ["index_col", "location_id", "date"] (dailyFrame B) =
      .ok ((dailyFrame (T.filter fun t =>
          decide (∀ b ∈ B, ¬(b.1 = t.1 ∧ b.2.1 = t.2.1))) ++
            dailyFrame B),
        B.length) := by
  refine ⟨fun l d => rfl, ?_⟩
  rw [db_upsert_some_eq _ _ _ _ (by simp)]
  congr 1
  congr 1
  · congr 1
    simp only [dailyFrame, List.filter_map, List.map_map]
    congr 1
    apply List.filter_congr
    intro t _
    simp only [Function.comp_apply, dailyKeys, List.head?_cons]
    rw [decide_eq_decide]
    constructor
    · intro hnot b hb hpair
      apply hnot
      refine List.mem_map.mpr ⟨b, hb, ?_⟩
      simp only [Function.comp_apply, dailyKeys, List.head?_cons,
        Option.some.injEq]
      exact (mkIndexCol_inj b.1 t.1 b.2.1 t.2.1).mpr hpair
    · intro hall hmem
      obtain ⟨b, hb, heq⟩ := List.mem_map.mp hmem
      simp only [Function.comp_apply, dailyKeys, List.head?_cons,
        Option.some.injEq] at heq
      exact hall b hb ((mkIndexCol_inj b.1 t.1 b.2.1 t.2.1).mp heq)
  · simp [dailyFrame]

end DailySales

end Lib7shifts
